import Mathlib

/-!
Verification development for the WhisperLocalWeb job-processing engine
(`src/app/main.py`).  Text is modelled as `List Char`; Python floats that
the claims exercise only at dyadic values are modelled as `ℚ`; machine
state touched by the claims is made explicit.
-/

set_option maxRecDepth 10000

namespace WhisperLocalWeb

/-! ## Python string primitives -/

/-- Python `str.replace(pat, rep)` for a non-empty pattern `p :: ps`:
left-to-right, non-overlapping replacement of every occurrence. -/
def replaceAll (p : Char) (ps : List Char) (rep : List Char) : List Char → List Char
  | [] => []
  | c :: cs =>
    if (p :: ps).isPrefixOf (c :: cs) then
      rep ++ replaceAll p ps rep (cs.drop ps.length)
    else
      c :: replaceAll p ps rep cs
termination_by l => l.length
decreasing_by
  · simp only [List.length_cons, List.length_drop]
    omega
  · simp only [List.length_cons]
    omega

/-- Characters Python `str.strip()` removes (Unicode whitespace as
recognised by CPython `str.isspace`). -/
def isPythonSpace (c : Char) : Bool :=
  c ∈ [' ', '\t', '\n', '\x0b', '\x0c', '\r', '\x1c', '\x1d', '\x1e', '\x1f',
       '\u0085', '\u00a0', '\u1680', '\u2000', '\u2001', '\u2002', '\u2003',
       '\u2004', '\u2005', '\u2006', '\u2007', '\u2008', '\u2009', '\u200a',
       '\u2028', '\u2029', '\u202f', '\u205f', '\u3000']

/-- Python `str.strip()`: drop leading and trailing whitespace. -/
def pyStrip (l : List Char) : List Char :=
  ((l.dropWhile isPythonSpace).reverse.dropWhile isPythonSpace).reverse

/-- Line boundaries recognised by Python `str.splitlines` (besides the
combined `"\r\n"`). -/
def isLineBoundary (c : Char) : Bool :=
  c ∈ ['\n', '\r', '\x0b', '\x0c', '\x1c', '\x1d', '\x1e',
       '\u0085', '\u2028', '\u2029']

mutual

/-- Python `str.splitlines()`: `""` gives no lines, a trailing boundary
produces no trailing empty line, `"\r\n"` counts as one boundary. -/
def pySplitlines : List Char → List (List Char)
  | [] => []
  | c :: cs => splitGo [] (c :: cs)
termination_by l => (l.length, 1)

/-- Worker for `pySplitlines`, accumulating the current line reversed. -/
def splitGo (cur : List Char) : List Char → List (List Char)
  | [] => [cur.reverse]
  | c :: cs =>
    if c = '\r' ∧ cs.head? = some '\n' then
      cur.reverse :: pySplitlines cs.tail
    else if isLineBoundary c then
      cur.reverse :: pySplitlines cs
    else
      splitGo (c :: cur) cs
termination_by l => (l.length, 0)
decreasing_by
  · apply Prod.Lex.left
    cases cs
    · simp
    · simp only [List.tail_cons, List.length_cons]
      omega
  · apply Prod.Lex.left
    simp only [List.length_cons]
    omega
  · apply Prod.Lex.left
    simp only [List.length_cons]
    omega

end

/-- Python `int()` applied to a rational: truncation toward zero, i.e.
floor for non-negative values and ceiling for negative ones. -/
def pyInt (q : ℚ) : ℤ := if 0 ≤ q then ⌊q⌋ else ⌈q⌉

/-- Python `f"{n:0wd}"`: zero-pad a decimal rendering to width `w`,
keeping a leading sign in front of the padding. -/
def pyPadInt (w : Nat) (n : ℤ) : List Char :=
  let s := (toString n).toList
  if s.length < w then
    if s.head? = some '-' then
      '-' :: (List.replicate (w - s.length) '0' ++ s.tail)
    else
      List.replicate (w - s.length) '0' ++ s
  else s

/-! ## Text processing (`normalize_newlines`, SRT/VTT/plain renderers) -/

/-- `normalize_newlines` from `src/app/main.py`: empty in, empty out;
otherwise CRLF → LF, then lone CR → LF, then the two-character
sequence backslash-`n` → LF. -/
def normalize_newlines (text : List Char) : List Char :=
  if text = [] then []
  else
    replaceAll '\\' ['n'] ['\n']
      (replaceAll '\r' [] ['\n']
        (replaceAll '\r' ['\n'] ['\n'] text))

/-- `srt_caption_text`: normalize, split into lines, strip each, drop
blank lines, join by a single space. -/
def srt_caption_text (text : List Char) : List Char :=
  List.intercalate [' ']
    (((pySplitlines (normalize_newlines text)).map pyStrip).filter (· ≠ []))

/-- One decoded segment: `start`/`end` seconds and raw text. -/
structure Segment where
  startS : ℚ
  endS : ℚ
  text : List Char
deriving DecidableEq

/-- `format_timestamp_srt`: `HH:MM:SS,mmm` with truncated milliseconds;
`//` and `%` are Python floor division and modulus (`Int.fdiv`/`Int.fmod`). -/
def format_timestamp_srt (seconds : ℚ) : List Char :=
  let milliseconds : ℤ := pyInt ((seconds - (pyInt seconds : ℤ)) * 1000)
  let total_seconds : ℤ := pyInt seconds
  let hours : ℤ := total_seconds.fdiv 3600
  let minutes : ℤ := (total_seconds.fmod 3600).fdiv 60
  let secs : ℤ := total_seconds.fmod 60
  pyPadInt 2 hours ++ [':'] ++ pyPadInt 2 minutes ++ [':'] ++ pyPadInt 2 secs
    ++ [','] ++ pyPadInt 3 milliseconds

/-- `format_timestamp_vtt`: same as SRT but with `.` before milliseconds. -/
def format_timestamp_vtt (seconds : ℚ) : List Char :=
  let milliseconds : ℤ := pyInt ((seconds - (pyInt seconds : ℤ)) * 1000)
  let total_seconds : ℤ := pyInt seconds
  let hours : ℤ := total_seconds.fdiv 3600
  let minutes : ℤ := (total_seconds.fmod 3600).fdiv 60
  let secs : ℤ := total_seconds.fmod 60
  pyPadInt 2 hours ++ [':'] ++ pyPadInt 2 minutes ++ [':'] ++ pyPadInt 2 secs
    ++ ['.'] ++ pyPadInt 3 milliseconds

/-- `segments_to_srt`: blocks `i / "start --> end" / caption / blank`,
joined by LF (so the output ends after the final blank element with no
extra LF appended). -/
def segments_to_srt (segments : List Segment) : List Char :=
  List.intercalate ['\n']
    ((List.enumFrom 1 segments).flatMap fun is =>
      [(toString is.1).toList,
       format_timestamp_srt is.2.startS ++ [' ', '-', '-', '>', ' ']
         ++ format_timestamp_srt is.2.endS,
       srt_caption_text is.2.text,
       []])

/-- `segments_to_vtt`: `WEBVTT`, blank, then cue blocks joined by LF. -/
def segments_to_vtt (segments : List Segment) : List Char :=
  List.intercalate ['\n']
    (['W','E','B','V','T','T'] :: [] ::
      segments.flatMap fun s =>
        [format_timestamp_vtt s.startS ++ [' ', '-', '-', '>', ' ']
           ++ format_timestamp_vtt s.endS,
         pyStrip (normalize_newlines s.text),
         []])

/-- `segments_to_text`: skip falsy (empty) texts, normalize, strip,
join by LF. -/
def segments_to_text (segments : List Segment) : List Char :=
  List.intercalate ['\n']
    ((segments.filter (fun s => s.text ≠ [])).map
      (fun s => pyStrip (normalize_newlines s.text)))

/-- Python's substring test `needle in hay`: some suffix of `hay`
starts with `needle`. -/
def containsSeq (needle : List Char) : List Char → Bool
  | [] => needle.isEmpty
  | c :: cs => needle.isPrefixOf (c :: cs) || containsSeq needle cs

/-! ## Upload validation -/

/-- The fixed media-container allow-list. -/
def ALLOWED_EXTENSIONS : List (List Char) :=
  [".mp3".toList, ".wav".toList, ".mp4".toList, ".avi".toList, ".mov".toList,
   ".m4a".toList, ".flac".toList, ".ogg".toList, ".webm".toList]

/-- 500 MB upper size bound. -/
def MAX_FILE_SIZE : Nat := 500 * 1024 * 1024

/-- 1 KB lower size bound. -/
def MIN_FILE_SIZE : Nat := 1024

/-- Index of the last occurrence of `c` in `l` (as `str.rfind`). -/
def lastIndexOf (c : Char) : List Char → Option Nat
  | [] => none
  | x :: xs =>
    match lastIndexOf c xs with
    | some i => some (i + 1)
    | none => if x = c then some 0 else none

/-- `pathlib.Path(name).suffix` of a plain file name (the validator has
already excluded path separators): the tail from the last dot provided
that dot is neither the first nor the last character. -/
def pathSuffix (name : List Char) : List Char :=
  match lastIndexOf '.' name with
  | some i => if 0 < i ∧ i < name.length - 1 then name.drop i else []
  | none => []

/-- `validate_filename`: non-empty, at most 255 characters, no `..`,
`/` or `\` anywhere, lower-cased extension in the allow-list
(`Char.toLower` is ASCII lowercasing, which agrees with `str.lower`
on the ASCII allow-list comparison). -/
def validate_filename (filename : List Char) : Bool :=
  if filename = [] ∨ filename.length > 255 then false
  else if containsSeq ['.', '.'] filename ∨ filename.contains '/'
      ∨ filename.contains '\\' then false
  else ALLOWED_EXTENSIONS.contains ((pathSuffix filename).map Char.toLower)

/-- `validate_file`: filename guard, then the size window
`MIN_FILE_SIZE ≤ size ≤ MAX_FILE_SIZE`, with the error message the
endpoint surfaces. -/
def validate_file (filename : List Char) (size : Nat) : Bool × List Char :=
  if filename = [] then (false, "No filename provided".toList)
  else if validate_filename filename = false then
    (false, "Invalid filename or extension".toList)
  else if size < MIN_FILE_SIZE then (false, "File too small".toList)
  else if size > MAX_FILE_SIZE then (false, "File too large (max 500MB)".toList)
  else (true, "Valid".toList)

/-! ## Log listing (`get_logs`) -/

/-- One persisted log entry, keyed by the fields `get_logs` touches. -/
structure LogEntry where
  job_id : List Char
  updated_at : List Char
deriving DecidableEq

/-- Python string `<=` (lexicographic by code point), used through the
`key=... reverse=True` sort. -/
def pyStrLe : List Char → List Char → Bool
  | [], _ => true
  | _ :: _, [] => false
  | a :: as, b :: bs => if a = b then pyStrLe as bs else decide (a < b)

/-- Comparator realising `sort(key=lambda x: x.get("updated_at", ""),
reverse=True)`: descending by `updated_at`, stable on ties. -/
def descByUpdatedAt (a b : LogEntry) : Bool := pyStrLe b.updated_at a.updated_at

/-- The `limit` rewrite in `get_logs`: out-of-range values (including
the claim's 0 and 2000) are replaced by the default 50, not clamped. -/
def effectiveLimit (limit : ℤ) : ℤ :=
  if limit ≤ 0 ∨ limit > 1000 then 50 else limit

/-- `get_logs`: stable descending sort by `updated_at`, truncated to the
effective limit. -/
def get_logs (logs : List LogEntry) (limit : ℤ) : List LogEntry :=
  (logs.mergeSort descByUpdatedAt).take (effectiveLimit limit).toNat

/-- `get_logs` with the query parameter absent (`limit: int = 50`). -/
def get_logs_default (logs : List LogEntry) : List LogEntry := get_logs logs 50

/-! ## Transcription jobs (`transcribe_job`, `get_audio_duration`) -/

/-- Job states of the engine's state machine. -/
inductive JobStatus
  | queued
  | running
  | done
  | error
deriving DecidableEq

/-- Outcome of the ffprobe call inside `get_audio_duration`.  The
source's `except (subprocess.SubprocessError, ValueError, TypeError)`
catches a failed or timed-out probe process and unparsable output
(`caught`), but an `OSError` from launching the binary — e.g.
`FileNotFoundError` when ffprobe is not installed — is not in that
tuple and escapes the function (`raised`). -/
inductive ProbeOutcome
  | parsed (d : ℚ)
  | caught
  | raised (e : List Char)
deriving DecidableEq

/-- `get_audio_duration`: the parsed duration on success, `0.0` for
every caught failure, and the escaping exception otherwise. -/
def get_audio_duration (probe : ProbeOutcome) : Except (List Char) ℚ :=
  match probe with
  | .parsed d => .ok d
  | .caught => .ok 0
  | .raised e => .error e

/-- The in-loop progress writes of `transcribe_job`: one write per
consumed segment when `duration > 0`, with value
`min (segment.end / duration) 0.99`; no write otherwise. -/
def progressWrites (duration : ℚ) (segs : List Segment) : List ℚ :=
  if duration > 0 then segs.map (fun s => min (s.endS / duration) (99 / 100))
  else []

/-- The job-record fields a `transcribe_job` run leaves in
`JOBS[job_id]` when it finishes; `duration` is `none` when the probe
raised before `job_state["duration"]` was ever assigned. -/
structure JobRecord where
  status : JobStatus
  progress : ℚ
  duration : Option ℚ
  txt : List Char
  srt : List Char
  vtt : List Char
  error : Option (List Char)

/-- `transcribe_job` with its two external effects explicit: the probe
outcome and the inference outcome (`Except.error` models an exception
escaping `get_model`/`model.transcribe`).  An exception the probe
raises, like one from the inference, lands in the handler's generic
`except Exception` and marks the job `error`; the probe raises before
the duration field is assigned, while an inference failure keeps the
duration set in step 2. -/
def transcribe_job (probe : ProbeOutcome)
    (inference : Except (List Char) (List Segment)) : JobRecord :=
  match get_audio_duration probe with
  | .error e =>
      { status := .error, progress := 0, duration := none,
        txt := [], srt := [], vtt := [], error := some e }
  | .ok duration =>
      match inference with
      | .error e =>
          { status := .error, progress := 0, duration := some duration,
            txt := [], srt := [], vtt := [], error := some e }
      | .ok segs =>
          { status := .done, progress := 1, duration := some duration,
            txt := segments_to_text segs, srt := segments_to_srt segs,
            vtt := segments_to_vtt segs, error := none }

/-! ## Download endpoint (`download_file`) -/

/-- Responses of the download handler.  The JSON branch re-parses the
artifact and re-serialises it (`JSONResponse`); its payload is not
modelled further.  Text artifacts are served through a
backslash-n rewrite. -/
inductive DownloadResult
  | badRequest400
  | notFound404
  | jsonReserialized
  | plainText (body : List Char)
deriving DecidableEq

/-- `download_file` over an explicit table of the files present in the
output directory.  The handler never consults the job table: only the
artifact file's existence decides between 404 and a response. -/
def download_file (outputDir : List (List Char × List Char))
    (filename : List Char) : DownloadResult :=
  if filename = [] ∨ containsSeq ['.', '.'] filename
      ∨ filename.contains '/' then .badRequest400
  else
    match outputDir.lookup filename with
    | none => .notFound404
    | some content =>
        if ".json".toList.isSuffixOf filename then .jsonReserialized
        else .plainText (replaceAll '\\' ['n'] ['\n'] content)

/-! ## Upload endpoint (`upload_file`) -/

/-- Responses of the upload handler (the 500 branch for a failed disk
write is outside the claims). -/
inductive UploadResult
  | locked423
  | badRequest400 (detail : List Char)
  | jobPage (jobId : List Char)
deriving DecidableEq

/-- `upload_file`: the `_loading["in_progress"]` guard runs first, before
validation and before any entry is added to `JOBS`; `jobs` is the set of
job ids and the second component of the result is the table afterwards. -/
def upload_file (loadingInProgress : Bool) (filename : List Char) (size : Nat)
    (jobs : List (List Char)) (newId : List Char) :
    UploadResult × List (List Char) :=
  if loadingInProgress then (.locked423, jobs)
  else
    let v := validate_file filename size
    if v.1 = false then (.badRequest400 v.2, jobs)
    else (.jobPage newId, jobs ++ [newId])

/-! ## Route table -/

/-- Every route decorator in `src/app/main.py`, in source order. -/
def appRoutes : List (List Char × List Char) :=
  [("GET".toList, "/".toList),
   ("GET".toList, "/job/\x7bjob_id\x7d".toList),
   ("POST".toList, "/upload".toList),
   ("GET".toList, "/api/status/\x7bjob_id\x7d".toList),
   ("GET".toList, "/api/logs".toList),
   ("GET".toList, "/api/download/\x7bfilename\x7d".toList),
   ("GET".toList, "/api/models".toList),
   ("GET".toList, "/api/model".toList),
   ("POST".toList, "/api/model".toList),
   ("GET".toList, "/health".toList)]

/-! ## Model cache (`get_model`) as an interleaving model -/

/-- Shared state touched by `get_model`: the `(id, compute_type)` key of
`_model_cache` (`none` before any load) and a counter of `WhisperModel`
constructions. -/
structure ModelCacheState where
  cacheKey : Option (List Char × List Char)
  loadCount : Nat
deriving DecidableEq

/-- Program counter of one thread inside `get_model()`.  The function
body acquires no lock (`_switch_lock` is only used by `_do_switch`), so
the cache check and the load-and-install are separate atomic steps with
nothing preventing interleaving between them. -/
inductive GetModelPc
  | check
  | load
  | finished
deriving DecidableEq

/-- One atomic step of `get_model` for the configured target `cfg`:
`check` is the cache comparison, `load` constructs a model and installs
it in `_model_cache`. -/
def getModelStep (cfg : List Char × List Char) (s : ModelCacheState)
    (pc : GetModelPc) : ModelCacheState × GetModelPc :=
  match pc with
  | .check => if s.cacheKey = some cfg then (s, .finished) else (s, .load)
  | .load => ({ cacheKey := some cfg, loadCount := s.loadCount + 1 }, .finished)
  | .finished => (s, .finished)

/-- Run two `get_model` threads under a schedule: `false` steps the
first thread, `true` the second. -/
def runTwo (cfg : List Char × List Char) :
    List Bool → ModelCacheState × GetModelPc × GetModelPc →
      ModelCacheState × GetModelPc × GetModelPc
  | [], st => st
  | t :: ts, (s, pc0, pc1) =>
    if t then
      let s1 := getModelStep cfg s pc1
      runTwo cfg ts (s1.1, pc0, s1.2)
    else
      let s0 := getModelStep cfg s pc0
      runTwo cfg ts (s0.1, s0.2, pc1)

/-- Overlapping counterexample segments for the progress claim. -/
def overlappingSegs : List Segment :=
  [⟨0, 10, "a".toList⟩, ⟨1, 2, "b".toList⟩]

/-- The C2 sample stream. -/
def sampleSegments : List Segment :=
  [⟨0, 1, "こんにちは".toList⟩, ⟨1, 5/2, "世界".toList⟩]

/-- Every character of a replacement output comes from the input or from
the replacement text. -/
theorem mem_replaceAll {p : Char} {ps rep l : List Char} {x : Char}
    (hx : x ∈ replaceAll p ps rep l) : x ∈ l ∨ x ∈ rep := by
  induction l using replaceAll.induct p ps rep with
  | case1 => simp [replaceAll] at hx
  | case2 c cs h ih =>
      rw [replaceAll, if_pos h] at hx
      rcases List.mem_append.mp hx with h1 | h1
      · right; exact h1
      · rcases ih h1 with h2 | h2
        · left; exact List.mem_cons_of_mem _ (List.mem_of_mem_drop h2)
        · right; exact h2
  | case3 c cs h ih =>
      rw [replaceAll, if_neg h] at hx
      rcases List.mem_cons.mp hx with h1 | h1
      · left; simp [h1]
      · rcases ih h1 with h2 | h2
        · left; exact List.mem_cons_of_mem _ h2
        · right; exact h2

/-- If the (non-empty) pattern occurs nowhere in `l`, replacement is the
identity. -/
theorem replaceAll_no_match {p : Char} {ps rep : List Char} :
    ∀ {l : List Char}, ¬ ((p :: ps) <:+: l) → replaceAll p ps rep l = l := by
  intro l
  induction l with
  | nil => intro _; rw [replaceAll]
  | cons c cs ih =>
      intro h
      rw [replaceAll, if_neg, ih (fun hin => h (List.infix_cons hin))]
      intro hpre
      exact h (List.IsPrefix.isInfix (List.isPrefixOf_iff_prefix.mp hpre))

/-- The CR-removal pass leaves no carriage return behind. -/
theorem not_mem_CR_replaceCR : ∀ l : List Char, '\r' ∉ replaceAll '\r' [] ['\n'] l := by
  intro l
  induction l using replaceAll.induct '\r' [] ['\n'] with
  | case1 => simp [replaceAll]
  | case2 c cs h ih =>
      rw [replaceAll, if_pos h]
      intro hx
      rcases List.mem_append.mp hx with h1 | h1
      · simp at h1
      · exact ih (by simpa using h1)
  | case3 c cs h ih =>
      rw [replaceAll, if_neg h]
      intro hx
      rcases List.mem_cons.mp hx with h1 | h1
      · apply h
        subst h1
        simp [List.isPrefixOf]
      · exact ih h1

/-- Non-CR characters stay absent through a replacement whose
replacement text does not contain them. -/
theorem not_mem_replaceAll {p : Char} {ps rep l : List Char} {x : Char}
    (h1 : x ∉ l) (h2 : x ∉ rep) : x ∉ replaceAll p ps rep l := by
  intro hx
  rcases mem_replaceAll hx with h | h
  · exact h1 h
  · exact h2 h

/-- Head of the backslash-n pass output is never the letter `n` unless
the input already began with `n`. -/
theorem head_replaceBS (cs : List Char)
    (h : (replaceAll '\\' ['n'] ['\n'] cs).head? = some 'n') :
    cs.head? = some 'n' := by
  cases cs with
  | nil => simp [replaceAll] at h
  | cons d ds =>
      rw [replaceAll] at h
      by_cases hm : (['\\', 'n'].isPrefixOf (d :: ds)) = true
      · rw [if_pos hm] at h
        simp at h
      · rw [if_neg hm] at h
        simpa using h

/-- The backslash-n pass leaves no literal backslash-n pair behind. -/
theorem not_infix_BSn_replaceBS :
    ∀ l : List Char, ¬ (['\\', 'n'] <:+: replaceAll '\\' ['n'] ['\n'] l) := by
  intro l
  induction l using replaceAll.induct '\\' ['n'] ['\n'] with
  | case1 => rw [replaceAll]; simp
  | case2 c cs h ih =>
      rw [replaceAll, if_pos h]
      simp only [List.singleton_append]
      intro hin
      rcases List.infix_cons_iff.mp hin with h1 | h1
      · rcases List.cons_prefix_cons.mp h1 with ⟨h2, _⟩
        simp at h2
      · exact ih h1
  | case3 c cs h ih =>
      rw [replaceAll, if_neg h]
      intro hin
      rcases List.infix_cons_iff.mp hin with h1 | h1
      · rcases List.cons_prefix_cons.mp h1 with ⟨h2, h3⟩
        subst h2
        rcases h3 with ⟨t, ht⟩
        apply h
        have hh : (replaceAll '\\' ['n'] ['\n'] cs).head? = some 'n' := by
          rw [← ht]; rfl
        have := head_replaceBS cs hh
        cases cs with
        | nil => simp at this
        | cons d ds =>
            simp at this
            subst this
            simp [List.isPrefixOf]
      · exact ih h1

/-- `normalize_newlines` is idempotent. -/
theorem normalize_newlines_idem (l : List Char) :
    normalize_newlines (normalize_newlines l) = normalize_newlines l := by
  by_cases h0 : l = []
  · subst h0; simp [normalize_newlines]
  · have hyd : normalize_newlines l =
        replaceAll '\\' ['n'] ['\n']
          (replaceAll '\r' [] ['\n'] (replaceAll '\r' ['\n'] ['\n'] l)) := by
      rw [normalize_newlines, if_neg h0]
    set y := normalize_newlines l with hy
    have hCR : '\r' ∉ y := by
      rw [hyd]
      exact not_mem_replaceAll (not_mem_CR_replaceCR _) (by simp)
    have hBS : ¬ (['\\', 'n'] <:+: y) := by
      rw [hyd]; exact not_infix_BSn_replaceBS _
    rw [normalize_newlines]
    by_cases hy0 : y = []
    · rw [if_pos hy0, hy0]
    · rw [if_neg hy0,
          replaceAll_no_match (fun hin => hCR (hin.subset (by simp))),
          replaceAll_no_match (fun hin => hCR (hin.subset (by simp))),
          replaceAll_no_match hBS]

/-- `containsSeq` decides substring containment. -/
theorem containsSeq_true_iff {n h : List Char} :
    containsSeq n h = true ↔ n <:+: h := by
  induction h with
  | nil =>
      simp [containsSeq, List.isEmpty_iff, List.infix_nil]
  | cons c cs ih =>
      simp [containsSeq, List.infix_cons_iff, ih, List.isPrefixOf_iff_prefix,
            Bool.or_eq_true]

/-- Characterisation of `validate_filename`. -/
theorem validate_filename_iff (filename : List Char) :
    validate_filename filename = true ↔
      (filename ≠ [] ∧ filename.length ≤ 255
        ∧ ¬ (['.', '.'] <:+: filename)
        ∧ '/' ∉ filename ∧ '\\' ∉ filename
        ∧ (pathSuffix filename).map Char.toLower ∈ ALLOWED_EXTENSIONS) := by
  unfold validate_filename
  split_ifs with h1 h2
  · simp only [Bool.false_eq_true, false_iff]
    intro hc
    rcases h1 with h | h
    · exact hc.1 h
    · omega
  · simp only [Bool.false_eq_true, false_iff]
    intro hc
    rcases h2 with h | h | h
    · exact hc.2.2.1 (containsSeq_true_iff.mp h)
    · exact hc.2.2.2.1 (by simpa [List.contains, List.elem_iff] using h)
    · exact hc.2.2.2.2.1 (by simpa [List.contains, List.elem_iff] using h)
  · push_neg at h1 h2
    simp only [List.contains, List.elem_iff] at h2
    constructor
    · intro hc
      refine ⟨h1.1, by omega, ?_, fun hm => h2.2.1 (List.elem_iff.mpr hm),
        fun hm => h2.2.2 (List.elem_iff.mpr hm),
        by simpa [List.elem_iff] using hc⟩
      intro hin
      have := containsSeq_true_iff.mpr hin
      simp [this] at h2
    · intro hc
      simpa [List.elem_iff] using hc.2.2.2.2.2

/-- Characterisation of `validate_file`'s accept bit. -/
theorem validate_file_iff (filename : List Char) (size : Nat) :
    (validate_file filename size).1 = true ↔
      (validate_filename filename = true
        ∧ MIN_FILE_SIZE ≤ size ∧ size ≤ MAX_FILE_SIZE) := by
  simp only [validate_file, MIN_FILE_SIZE, MAX_FILE_SIZE]
  split_ifs with h1 h2 h3 h4
  · simp only [Bool.false_eq_true, false_iff]
    intro hc
    exact ((validate_filename_iff filename).mp hc.1).1 h1
  · simp [h2]
  · simp only [Bool.false_eq_true, false_iff]
    intro hc
    omega
  · simp only [Bool.false_eq_true, false_iff]
    intro hc
    omega
  · simp only [true_iff]
    exact ⟨by simpa using h2, by omega, by omega⟩

/-- C1: a filename that is empty, longer than 255 characters, contains
`..`, `/` or `\`, or whose lower-cased extension is not in the fixed
allow-list is always rejected; and a file is accepted exactly when the
filename rules pass and `1024 ≤ size ≤ 500·1024·1024`. -/
theorem claim_C1_upload_validation (filename : List Char) (size : Nat) :
    ((filename = [] ∨ 255 < filename.length
        ∨ ['.', '.'] <:+: filename
        ∨ '/' ∈ filename ∨ '\\' ∈ filename
        ∨ (pathSuffix filename).map Char.toLower ∉ ALLOWED_EXTENSIONS) →
      (validate_file filename size).1 = false)
    ∧ ((validate_file filename size).1 = true ↔
        (filename ≠ [] ∧ filename.length ≤ 255
          ∧ ¬ (['.', '.'] <:+: filename)
          ∧ '/' ∉ filename ∧ '\\' ∉ filename
          ∧ (pathSuffix filename).map Char.toLower ∈ ALLOWED_EXTENSIONS
          ∧ 1024 ≤ size ∧ size ≤ 500 * 1024 * 1024)) := by
  have hiff : (validate_file filename size).1 = true ↔
      (filename ≠ [] ∧ filename.length ≤ 255
        ∧ ¬ (['.', '.'] <:+: filename)
        ∧ '/' ∉ filename ∧ '\\' ∉ filename
        ∧ (pathSuffix filename).map Char.toLower ∈ ALLOWED_EXTENSIONS
        ∧ 1024 ≤ size ∧ size ≤ 500 * 1024 * 1024) := by
    rw [validate_file_iff, validate_filename_iff]
    simp only [MIN_FILE_SIZE, MAX_FILE_SIZE]
    tauto
  refine ⟨?_, hiff⟩
  intro hbad
  cases hvf : (validate_file filename size).1 with
  | false => rfl
  | true =>
      have h := hiff.mp hvf
      rcases hbad with h' | h' | h' | h' | h' | h'
      · exact absurd h' h.1
      · omega
      · exact absurd h' h.2.2.1
      · exact absurd h' h.2.2.2.1
      · exact absurd h' h.2.2.2.2.1
      · exact absurd h.2.2.2.2.2.1 h'

/-- C5 fails as stated: an uncaught probe failure — an `OSError` such
as `FileNotFoundError` when the ffprobe binary is missing, absent from
the handler's except tuple — escapes `get_audio_duration`, and the job
ends in the error state even though the inference would have
succeeded.  So a probe failure alone can cause the error state. -/
theorem claim_C5_counterexample :
    (transcribe_job (.raised "ffprobe not found".toList)
        (.ok [⟨0, 1, "a".toList⟩])).status = .error
    ∧ ¬ ((transcribe_job (.raised "ffprobe not found".toList)
        (.ok [⟨0, 1, "a".toList⟩])).status = .done)
    ∧ (transcribe_job (.raised "ffprobe not found".toList)
        (.ok [⟨0, 1, "a".toList⟩])).error
        = some "ffprobe not found".toList := by
  refine ⟨rfl, by decide, rfl⟩

/-- C5 (amended): every probe failure of the kinds the code catches —
a failed or timed-out probe process or unparsable output — is
non-fatal: the job continues with duration 0.0, ends `done` whenever
the inference succeeds, and reaches `error` only if the inference
itself fails; an uncaught `OSError` from launching ffprobe, by
contrast, always ends the job in the error state. -/
theorem claim_C5_amended_probe_failure
    (inference : Except (List Char) (List Segment)) :
    (transcribe_job .caught inference).duration = some 0
    ∧ ((transcribe_job .caught inference).status = .error ↔
        ∃ e, inference = .error e)
    ∧ (∀ segs, inference = .ok segs →
        (transcribe_job .caught inference).status = .done)
    ∧ (∀ e, (transcribe_job (.raised e) inference).status = .error) := by
  cases inference with
  | error e =>
      refine ⟨rfl, ?_, ?_, fun e2 => rfl⟩
      · simp [transcribe_job, get_audio_duration]
      · intro segs h; cases h
  | ok segs =>
      refine ⟨rfl, ?_, fun _ _ => rfl, fun e2 => rfl⟩
      simp [transcribe_job, get_audio_duration]

/-- C7: the application exposes no delete operation — no route uses the
DELETE method and no route path mentions deletion. -/
theorem claim_C7_no_delete_route :
    (appRoutes.all fun r => r.1 ≠ "DELETE".toList)
    ∧ (appRoutes.all fun r => containsSeq "delete".toList r.2 = false) := by
  constructor <;> decide

/-- C9: two `get_model` calls racing from a cold cache each pass the
cache check before either installs, so the model is loaded twice —
there is no lock between the check and the load. -/
theorem claim_C9_double_load :
    (runTwo ("base".toList, "int8".toList) [false, true, false, true]
        (⟨none, 0⟩, .check, .check)).1.loadCount = 2
    ∧ ¬ ((runTwo ("base".toList, "int8".toList) [false, true, false, true]
        (⟨none, 0⟩, .check, .check)).1.loadCount = 1) := by
  constructor <;> decide

/-- C10: while a model switch is in progress every upload is rejected
with 423 before validation runs, and the job table is left unchanged —
no job is created. -/
theorem claim_C10_locked_during_switch (filename : List Char) (size : Nat)
    (jobs : List (List Char)) (newId : List Char) :
    upload_file true filename size jobs newId = (.locked423, jobs) := rfl

/-- `pyStrLe` is total. -/
theorem pyStrLe_total : ∀ a b : List Char, pyStrLe a b || pyStrLe b a := by
  intro a
  induction a with
  | nil => intro b; simp [pyStrLe]
  | cons x xs ih =>
      intro b
      cases b with
      | nil => simp [pyStrLe]
      | cons y ys =>
          simp only [pyStrLe]
          by_cases hxy : x = y
          · subst hxy
            simpa using ih ys
          · have hyx : y ≠ x := fun h => hxy h.symm
            rw [if_neg hxy, if_neg hyx]
            rcases lt_trichotomy x y with h | h | h
            · simp [h]
            · exact absurd h hxy
            · simp [h]

/-- `pyStrLe` is transitive. -/
theorem pyStrLe_trans :
    ∀ a b c : List Char, pyStrLe a b → pyStrLe b c → pyStrLe a c := by
  intro a
  induction a with
  | nil => intro b c _ _; simp [pyStrLe]
  | cons x xs ih =>
      intro b c hab hbc
      cases b with
      | nil => simp [pyStrLe] at hab
      | cons y ys =>
          cases c with
          | nil => simp [pyStrLe] at hbc
          | cons z zs =>
              simp only [pyStrLe] at hab hbc ⊢
              by_cases hxy : x = y
              · subst hxy
                rw [if_pos rfl] at hab
                by_cases hyz : x = z
                · subst hyz
                  rw [if_pos rfl] at hbc ⊢
                  exact ih ys zs hab hbc
                · rw [if_neg hyz] at hbc ⊢
                  exact hbc
              · rw [if_neg hxy] at hab
                have hlt : x < y := by simpa using hab
                by_cases hyz : y = z
                · subst hyz
                  rw [if_neg hxy]
                  simpa using hlt
                · rw [if_neg hyz] at hbc
                  have hlt2 : y < z := by simpa using hbc
                  have hxz : x < z := lt_trans hlt hlt2
                  rw [if_neg (ne_of_lt hxz)]
                  simpa using hxz

/-- The descending comparator inherits totality. -/
theorem descByUpdatedAt_total (a b : LogEntry) :
    descByUpdatedAt a b || descByUpdatedAt b a := by
  simpa [descByUpdatedAt] using pyStrLe_total b.updated_at a.updated_at

/-- The descending comparator inherits transitivity. -/
theorem descByUpdatedAt_trans (a b c : LogEntry) :
    descByUpdatedAt a b → descByUpdatedAt b c → descByUpdatedAt a c :=
  fun h1 h2 => pyStrLe_trans c.updated_at b.updated_at a.updated_at h2 h1

/-- C4 (amended): `get_logs` sorts descending by `updated_at` and takes
the effective limit, where limits inside `[1,1000]` are used as given
and every other limit (0, negative, or above 1000) is replaced by the
default 50 — not clamped; with no query parameter the default is 50. -/
theorem claim_C4_amended_log_listing (logs : List LogEntry) (limit : ℤ) :
    get_logs logs limit
      = (logs.mergeSort descByUpdatedAt).take (effectiveLimit limit).toNat
    ∧ (get_logs logs limit).Pairwise
        (fun a b => pyStrLe b.updated_at a.updated_at = true)
    ∧ effectiveLimit limit = (if 1 ≤ limit ∧ limit ≤ 1000 then limit else 50)
    ∧ get_logs_default logs = (logs.mergeSort descByUpdatedAt).take 50 := by
  refine ⟨rfl, ?_, ?_, ?_⟩
  · apply List.Pairwise.sublist (List.take_sublist _ _)
    exact List.sorted_mergeSort
      (fun a b c => descByUpdatedAt_trans a b c)
      (fun a b => descByUpdatedAt_total a b) logs
  · unfold effectiveLimit
    split_ifs <;> first | rfl | omega
  · rfl

/-- C4 fails as stated: a request with `limit = 0` does not yield one
entry — the code replaces 0 by the default 50 and returns both entries
of a two-entry log. -/
theorem claim_C4_counterexample :
    (get_logs
        [⟨"b".toList, "2024-01-02T00:00:00".toList⟩,
         ⟨"a".toList, "2024-01-01T00:00:00".toList⟩] 0).length = 2
    ∧ ¬ ((get_logs
        [⟨"b".toList, "2024-01-02T00:00:00".toList⟩,
         ⟨"a".toList, "2024-01-01T00:00:00".toList⟩] 0).length ≤ 1)
    ∧ effectiveLimit 0 = 50 ∧ effectiveLimit 2000 = 50 := by
  have hs : List.Pairwise (fun a b => descByUpdatedAt a b = true)
      [LogEntry.mk "b".toList "2024-01-02T00:00:00".toList,
       LogEntry.mk "a".toList "2024-01-01T00:00:00".toList] := by
    decide
  have he : get_logs
      [LogEntry.mk "b".toList "2024-01-02T00:00:00".toList,
       LogEntry.mk "a".toList "2024-01-01T00:00:00".toList] 0
      = [LogEntry.mk "b".toList "2024-01-02T00:00:00".toList,
         LogEntry.mk "a".toList "2024-01-01T00:00:00".toList] := by
    unfold get_logs
    rw [List.mergeSort_of_sorted hs]
    decide
  rw [he]
  refine ⟨rfl, by simp, by decide, by decide⟩

/-- C6 fails as stated: these segments satisfy `end ≥ start` with
non-decreasing `start`, yet the progress writes decrease
(`0.1` then `0.02` at duration 100). -/
theorem claim_C6_counterexample :
    (∀ s ∈ overlappingSegs, s.startS ≤ s.endS)
    ∧ List.Chain' (fun a b => a.startS ≤ b.startS) overlappingSegs
    ∧ progressWrites 100 overlappingSegs = [1/10, 1/50]
    ∧ ¬ List.Chain' (· ≤ ·) (progressWrites 100 overlappingSegs) := by
  refine ⟨?_, ?_, ?_, ?_⟩
  · intro s hs
    simp only [overlappingSegs, List.mem_cons, List.mem_singleton] at hs
    rcases hs with h | h | h
    · subst h; norm_num
    · subst h; norm_num
    · simp at h
  · simp [overlappingSegs, List.chain'_cons]
  · simp [overlappingSegs, progressWrites, min_def]
    norm_num
  · simp [overlappingSegs, progressWrites, min_def]
    norm_num

/-- C6 (amended): when the segment stream has non-decreasing end
times (as non-overlapping segments do), the in-loop progress writes are
non-decreasing, every such write is at most 0.99 (hence below 1), and
progress 1.0 is written exactly at the transition to `done`. -/
theorem claim_C6_amended_progress (d : ℚ) (segs : List Segment)
    (h : List.Chain' (fun a b => a.endS ≤ b.endS) segs) :
    List.Chain' (· ≤ ·) (progressWrites d segs)
    ∧ (∀ p ∈ progressWrites d segs, p ≤ 99 / 100 ∧ p < 1)
    ∧ (∀ probe, get_audio_duration probe = .ok d →
        (transcribe_job probe (.ok segs)).progress = 1
        ∧ (transcribe_job probe (.ok segs)).status = .done) := by
  refine ⟨?_, ?_, ?_⟩
  · unfold progressWrites
    split_ifs with hd
    · rw [List.chain'_map]
      apply h.imp
      intro a b hab
      exact min_le_min ((div_le_div_iff_of_pos_right hd).mpr hab) le_rfl
    · exact List.chain'_nil
  · intro p hp
    unfold progressWrites at hp
    split_ifs at hp with hd
    · rcases List.mem_map.mp hp with ⟨s, _, rfl⟩
      refine ⟨min_le_right _ _, ?_⟩
      exact lt_of_le_of_lt (min_le_right _ _) (by norm_num)
    · simp at hp
  · intro probe hp
    unfold transcribe_job
    rw [hp]
    exact ⟨rfl, rfl⟩

/-- Witness for the amended C6 at the sample stream. -/
theorem claim_C6_amended_progress_witness :
    List.Chain' (· ≤ ·)
      (progressWrites (5/2) [⟨0, 1, "a".toList⟩, ⟨1, 5/2, "b".toList⟩])
    ∧ (∀ p ∈ progressWrites (5/2) [⟨0, 1, "a".toList⟩, ⟨1, 5/2, "b".toList⟩],
        p ≤ 99 / 100 ∧ p < 1)
    ∧ (∀ probe, get_audio_duration probe = .ok (5/2) →
        (transcribe_job probe
          (.ok [⟨0, 1, "a".toList⟩, ⟨1, 5/2, "b".toList⟩])).progress = 1
        ∧ (transcribe_job probe
          (.ok [⟨0, 1, "a".toList⟩, ⟨1, 5/2, "b".toList⟩])).status = .done) :=
  claim_C6_amended_progress (5/2)
    [⟨0, 1, "a".toList⟩, ⟨1, 5/2, "b".toList⟩]
    (by simp [List.chain'_cons]; norm_num)

/-- C8 fails as stated: a stored text artifact containing a literal
backslash-n is served modified (the pair becomes a real LF), so the
bytes are not the raw stored ones; the artifact is served whenever the
file exists, with no check of the job's state. -/
theorem claim_C8_counterexample :
    download_file [("j.txt".toList, "a\\nb".toList)] "j.txt".toList
      = .plainText "a\nb".toList
    ∧ ¬ (download_file [("j.txt".toList, "a\\nb".toList)] "j.txt".toList
        = .plainText "a\\nb".toList)
    ∧ ¬ (download_file [("j.txt".toList, "a\\nb".toList)] "j.txt".toList
        = .notFound404) := by
  have he : download_file [("j.txt".toList, "a\\nb".toList)] "j.txt".toList
      = .plainText "a\nb".toList := by
    simp [download_file, containsSeq, replaceAll, List.isPrefixOf,
          List.lookup, List.isSuffixOf]
  refine ⟨he, by rw [he]; decide, by rw [he]; decide⟩

/-- C8 (amended): the download handler answers 404 exactly when the
artifact file is missing (the job table is never consulted), and serves
a stored non-JSON artifact with every literal backslash-n replaced by a
real LF (a JSON artifact is re-parsed and re-serialised). -/
theorem claim_C8_amended_download (outputDir : List (List Char × List Char))
    (filename : List Char) :
    ((filename = [] ∨ containsSeq ['.', '.'] filename = true
        ∨ filename.contains '/' = true) →
      download_file outputDir filename = .badRequest400)
    ∧ (¬ (filename = [] ∨ containsSeq ['.', '.'] filename = true
        ∨ filename.contains '/' = true) →
      (outputDir.lookup filename = none →
        download_file outputDir filename = .notFound404)
      ∧ (∀ content, outputDir.lookup filename = some content →
          ".json".toList.isSuffixOf filename = false →
          download_file outputDir filename
            = .plainText (replaceAll '\\' ['n'] ['\n'] content))) := by
  constructor
  · intro h1
    unfold download_file
    rw [if_pos h1]
  · intro h1
    constructor
    · intro h2
      unfold download_file
      rw [if_neg h1, h2]
    · intro content h2 h3
      unfold download_file
      rw [if_neg h1, h2]
      have h5 : (['.', 'j', 's', 'o', 'n'].isSuffixOf filename) = false := h3
      have h4 : ¬ (['.', 'j', 's', 'o', 'n'] <:+ filename) := by
        intro hs
        rw [← List.isSuffixOf_iff_suffix, h5] at hs
        exact Bool.false_ne_true hs
      simp [h4]

/-- C3: `normalize_newlines` is idempotent. -/
theorem claim_C3_normalize_idempotent (x : List Char) :
    normalize_newlines (normalize_newlines x) = normalize_newlines x :=
  normalize_newlines_idem x

/-- Evaluation scheme for the SRT timestamp once the two truncations
are known. -/
theorem format_timestamp_srt_eval (q : ℚ) (t m : ℤ)
    (h1 : pyInt q = t) (h2 : pyInt ((q - (t : ℚ)) * 1000) = m) :
    format_timestamp_srt q =
      pyPadInt 2 (t.fdiv 3600) ++ [':'] ++ pyPadInt 2 ((t.fmod 3600).fdiv 60)
        ++ [':'] ++ pyPadInt 2 (t.fmod 60) ++ [','] ++ pyPadInt 3 m := by
  simp only [format_timestamp_srt]
  rw [h1, h2]

/-- `format_timestamp_srt 0.0 = "00:00:00,000"`. -/
theorem format_timestamp_srt_zero :
    format_timestamp_srt 0 = "00:00:00,000".toList := by
  rw [format_timestamp_srt_eval 0 0 0 (by norm_num [pyInt]) (by norm_num [pyInt])]
  decide

/-- `format_timestamp_srt 1.0 = "00:00:01,000"`. -/
theorem format_timestamp_srt_one :
    format_timestamp_srt 1 = "00:00:01,000".toList := by
  rw [format_timestamp_srt_eval 1 1 0 (by norm_num [pyInt]) (by norm_num [pyInt])]
  decide

/-- `format_timestamp_srt 2.5 = "00:00:02,500"`. -/
theorem format_timestamp_srt_fiveHalves :
    format_timestamp_srt (5/2) = "00:00:02,500".toList := by
  rw [format_timestamp_srt_eval (5/2) 2 500 (by norm_num [pyInt])
    (by norm_num [pyInt])]
  decide

/-- SRT caption body of the first sample segment. -/
theorem srt_caption_hello :
    srt_caption_text "こんにちは".toList = "こんにちは".toList := by
  simp [srt_caption_text, normalize_newlines, replaceAll, List.isPrefixOf,
        pySplitlines, splitGo, pyStrip, isPythonSpace, isLineBoundary,
        List.dropWhile, List.intercalate, List.intersperse]

/-- SRT caption body of the second sample segment. -/
theorem srt_caption_world :
    srt_caption_text "世界".toList = "世界".toList := by
  simp [srt_caption_text, normalize_newlines, replaceAll, List.isPrefixOf,
        pySplitlines, splitGo, pyStrip, isPythonSpace, isLineBoundary,
        List.dropWhile, List.intercalate, List.intersperse]

/-- Plain-text rendering of the sample stream. -/
theorem segments_to_text_sample :
    segments_to_text sampleSegments = "こんにちは\n世界".toList := by
  simp [segments_to_text, sampleSegments, normalize_newlines, replaceAll,
        List.isPrefixOf, pyStrip, isPythonSpace, List.dropWhile,
        List.intercalate, List.intersperse]

/-- SRT rendering of the sample stream: one trailing LF, not two. -/
theorem segments_to_srt_sample :
    segments_to_srt sampleSegments =
      ("1\n00:00:00,000 --> 00:00:01,000\nこんにちは\n\n2\n" ++
        "00:00:01,000 --> 00:00:02,500\n世界\n").toList := by
  rw [segments_to_srt]
  simp only [sampleSegments, List.enumFrom, List.flatMap_cons,
    List.flatMap_nil, List.append_nil]
  rw [format_timestamp_srt_zero, format_timestamp_srt_one,
      format_timestamp_srt_fiveHalves, srt_caption_hello, srt_caption_world]
  decide

/-- C2 fails as stated: the claimed SRT prefix (ending in a blank line
after the last caption) is one LF longer than the entire SRT output, so
the rendering cannot begin with it. -/
theorem claim_C2_counterexample :
    ¬ (("1\n00:00:00,000 --> 00:00:01,000\nこんにちは\n\n2\n" ++
        "00:00:01,000 --> 00:00:02,500\n世界\n\n").toList
      <+: segments_to_srt sampleSegments) := by
  rw [segments_to_srt_sample]
  decide

/-- C2 (amended): the plain-text rendering is as claimed, and the SRT
rendering equals the claimed string minus its final LF — a blank line
separates the two caption blocks, and a single LF ends the output after
the last caption (no blank line after the last block). -/
theorem claim_C2_amended_scenario :
    segments_to_text sampleSegments = "こんにちは\n世界".toList
    ∧ segments_to_srt sampleSegments =
        ("1\n00:00:00,000 --> 00:00:01,000\nこんにちは\n\n2\n" ++
          "00:00:01,000 --> 00:00:02,500\n世界\n").toList :=
  ⟨segments_to_text_sample, segments_to_srt_sample⟩

end WhisperLocalWeb
